import Mathlib

set_option maxHeartbeats 1000000

/- Shallow embedding of the synchronization engine of the repository:
   memento_sdk.py (resilient fetch client, pagination walker, incremental
   fetch with detail enrichment) and memento_import.py (schema
   reconciliation, per-page upsert writer, checkpointing, batch driver). -/

/- ------------------------------------------------------------------
   Resilient fetch client: memento_sdk._get_with_backoff.
   An attempt sequence is modelled as a function from the attempt index
   (the value of the Python variable `tries` at the moment of the call)
   to the outcome of that requests.get call: either an HTTP response
   with a status code, or a requests.RequestException.
   ------------------------------------------------------------------ -/

inductive HttpOutcome where
  | resp (status : Nat)
  | netExc (msg : String)
deriving DecidableEq

inductive GetResult where
  | returned (status : Nat)
  | raised (msg : String)
  | noResult
deriving DecidableEq

/- Line 24 of memento_sdk.py: statuses returned to the caller at once. -/
def terminalOk (s : Nat) : Bool :=
  decide (s < 400) || s == 400 || s == 401 || s == 403 || s == 404

/- Line 26 of memento_sdk.py: statuses that trigger a backoff retry. -/
def retryableStatus (s : Nat) : Bool :=
  s == 429 || (decide (500 ≤ s) && decide (s < 600))

/- The while loop of _get_with_backoff.  `gas` is max_tries - tries,
   `r` is the last response received (None initially), `lastExc` the
   last recorded network exception.  Sleeping is irrelevant to the
   returned value and is not modelled. -/
def backoffLoop (attempts : Nat → HttpOutcome) :
    Nat → Nat → Option Nat → Option String → GetResult
  | 0, _, r, lastExc =>
    match r, lastExc with
    | none, some e => GetResult.raised e
    | none, none => GetResult.noResult
    | some s, _ => GetResult.returned s
  | gas + 1, tries, r, _ =>
    match attempts tries with
    | HttpOutcome.resp s =>
      if terminalOk s then GetResult.returned s
      else if retryableStatus s then
        backoffLoop attempts gas (tries + 1) (some s) none
      else GetResult.returned s
    | HttpOutcome.netExc e => backoffLoop attempts gas (tries + 1) r (some e)

def getWithBackoff (attempts : Nat → HttpOutcome) (maxTries : Nat) : GetResult :=
  backoffLoop attempts maxTries 0 none none

/- ------------------------------------------------------------------
   Records.  An Entry models a Memento record as the importer sees it:
   `top` is the record's top-level JSON object restricted to its string
   attributes (id, entry_id, modified, ...), and `fields` is the
   label-to-value map that memento_import._collect_fields extracts from
   the record's field payload.  Values are modelled as strings, matching
   the str() coercion applied by _entry_to_row.
   ------------------------------------------------------------------ -/

structure Entry where
  top : List (String × String)
  fields : List (String × String)
deriving DecidableEq

/- Python truthiness of an optional string: None and "" are falsy. -/
def truthyStr : Option String → Option String
  | some v => if v = "" then none else some v
  | none => none

/- memento_import._norm_key: lowercase and keep only [a-z0-9].  The
   leading strip() is subsumed by the filter, which drops whitespace. -/
def normKey (s : String) : String :=
  String.mk ((s.data.map Char.toLower).filter Char.isAlphanum)

/- str.strip() on a cell value. -/
def trimStr (s : String) : String :=
  String.mk (((s.data.dropWhile Char.isWhitespace).reverse.dropWhile
    Char.isWhitespace).reverse)

/- json.dumps(entry): a deterministic rendering of the record; only its
   determinism matters to the claims below. -/
def rawJson (e : Entry) : String :=
  String.intercalate "," (e.top.map (fun kv => kv.1 ++ "=" ++ kv.2)) ++ "|" ++
    String.intercalate "," (e.fields.map (fun kv => kv.1 ++ "=" ++ kv.2))

/- memento_import._entry_to_row: for each header, exact label match in
   fields_raw, then normalized-key match in fields_norm (where a later
   label overrides an earlier one with the same normalized key, hence the
   reverse), then a top-level attribute, then the ext-id fallback; a
   missing value becomes "".  The raw_json column is appended last. -/
def entryToRow (headers : List String) (e : Entry) : List (String × String) :=
  let fieldsNorm := (e.fields.map (fun kv => (normKey kv.1, kv.2))).reverse
  (headers.map (fun h =>
    let v : Option String :=
      match List.lookup h e.fields with
      | some v => some v
      | none =>
        match List.lookup (normKey h) fieldsNorm with
        | some v => some v
        | none =>
          match List.lookup h e.top with
          | some v => some v
          | none =>
            if normKey h = "extid" then List.lookup "id" e.top else none
    (h, v.getD ""))) ++ [("raw_json", rawJson e)]

/- ------------------------------------------------------------------
   Local store.  A Table is a SQLite table: its column list, its TEXT
   PRIMARY KEY column when one was declared at creation, and its rows as
   column-name/value association lists.
   ------------------------------------------------------------------ -/

structure Table where
  cols : List String
  pkCol : Option String
  rows : List (List (String × String))
deriving DecidableEq

/- memento_import._ensure_table_schema: create the table with columns
   headers + raw_json, marking the pk column PRIMARY KEY only when pk is
   nonempty; for an existing table, ALTER in the missing columns
   additively (added columns carry no constraint). -/
def ensureTableSchema (existing : Option Table) (headers : List String)
    (pk : String) : Table :=
  let cols := headers ++ ["raw_json"]
  match existing with
  | none =>
    { cols := cols
      pkCol := if pk = "" then none else if cols.contains pk then some pk else none
      rows := [] }
  | some t =>
    { t with cols := t.cols ++ cols.filter (fun c => ! t.cols.contains c) }

/- One INSERT OR REPLACE execution: with a PRIMARY KEY, rows holding the
   same pk value are deleted and the new row inserted; without any
   uniqueness constraint the statement degenerates to a plain insert. -/
def insRow (pk : Option String) (tbl : List (List (String × String)))
    (row : List (String × String)) : List (List (String × String)) :=
  match pk with
  | none => tbl ++ [row]
  | some pc =>
    tbl.filter (fun r => ! (List.lookup pc r == List.lookup pc row)) ++ [row]

/- The vals construction of _insert_chunk: [row.get(c, "") for c in cols],
   keyed back by column name. -/
def rowVals (cols : List String) (r : List (String × String)) :
    List (String × String) :=
  cols.map (fun c => (c, (List.lookup c r).getD ""))

/- Effect of a successful executemany over one page. -/
def applyChunk (headers : List String) (t : Table) (chunk : List Entry) : Table :=
  { t with rows :=
      ((chunk.map (fun e => rowVals (headers ++ ["raw_json"]) (entryToRow headers e))).foldl
        (insRow t.pkCol) t.rows) }

/- Fail-fast test of _insert_chunk: a mapped row counts as empty when
   every CSV header column is blank after strip(). -/
def rowEmptyOnHeaders (headers : List String) (row : List (String × String)) : Bool :=
  headers.all (fun h => trimStr ((List.lookup h row).getD "") == "")

/- memento_import._insert_chunk: all vals are built before executemany
   runs, raising the fail-fast error when enrich_details is on and some
   mapped row is blank on every header; the page is scoped by the
   memento_page savepoint, so on error the table is left untouched and
   the exception propagates to the caller. -/
def insertChunk (enrich : Bool) (headers : List String) (t : Table)
    (chunk : List Entry) : Except String Table :=
  if enrich && chunk.any (fun e => rowEmptyOnHeaders headers (entryToRow headers e)) then
    Except.error "fields vuoti dopo enrichment"
  else
    Except.ok (applyChunk headers t chunk)

/- Run state of import_library_incremental: the target table, the
   memento_sync checkpoint row for the library, and the running count of
   inserted rows. -/
structure SyncState where
  table : Table
  checkpoint : Option String
  inserted : Nat
deriving DecidableEq

/- The page loop of import_library_incremental (lines 611-634): empty
   chunks are skipped; each page is inserted and committed, after which
   the checkpoint advances to chunk[-1].get("modified") when that value
   is truthy; a page failure stops the run and carries the exception out
   together with the state already committed. -/
def runPages (enrich : Bool) (headers : List String) :
    SyncState → List (List Entry) → SyncState × Option String
  | st, [] => (st, none)
  | st, chunk :: rest =>
    if chunk.isEmpty then runPages enrich headers st rest
    else
      match insertChunk enrich headers st.table chunk with
      | Except.error e => (st, some e)
      | Except.ok t2 =>
        let ck2 :=
          match chunk.getLast? with
          | some last =>
            match truthyStr (List.lookup "modified" last.top) with
            | some m => some m
            | none => st.checkpoint
          | none => st.checkpoint
        runPages enrich headers
          { table := t2, checkpoint := ck2, inserted := st.inserted + chunk.length } rest

/- Lexicographic order on strings as lists of character codes; ISO-8601
   timestamps compare chronologically under it. -/
def charListLt : List Char → List Char → Bool
  | [], [] => false
  | [], _ :: _ => true
  | _ :: _, [] => false
  | a :: as, b :: bs =>
    if a.toNat < b.toNat then true
    else if b.toNat < a.toNat then false
    else charListLt as bs

def strLt (a b : String) : Bool := charListLt a.data b.data

/- Spec-side definition, for comparison with the code: the checkpoint
   value the spec prescribes, namely the maximum modification timestamp
   observed across all fetched records of the run (ISO-8601 strings
   compare chronologically via lexicographic order). -/
def specMaxModified (pages : List (List Entry)) : Option String :=
  ((pages.flatten).filterMap (fun e => List.lookup "modified" e.top)).foldl
    (fun acc m =>
      match acc with
      | none => some m
      | some a => some (if strLt a m then m else a)) none

/- Helper functions for reasoning about INSERT OR REPLACE folds. -/
def pkMem (pc : String) (k : Option String)
    (rs : List (List (String × String))) : Bool :=
  rs.any (fun r => List.lookup pc r == k)

def dedupLast (pc : String) :
    List (List (String × String)) → List (List (String × String))
  | [] => []
  | r :: rest =>
    if pkMem pc (List.lookup pc r) rest then dedupLast pc rest
    else r :: dedupLast pc rest

/- ------------------------------------------------------------------
   Batch driver.  memento_import.run_batch iterates the configured
   sections inside a single try: a missing library_id raises ValueError
   and any import failure propagates, so in both cases the outer except
   logs and re-raises, ending the whole batch.  The per-section import
   outcome is an oracle (it depends on network and database state), and
   the list of sections attempted so far is threaded for observability.
   ------------------------------------------------------------------ -/

structure SectionCfg where
  table : String
  library_id : Option String
  sync : String
deriving DecidableEq

def runBatchAux (imp : String → Except String Nat) :
    List (String × SectionCfg) → Nat → List String →
      Except (String × List String) (Nat × List String)
  | [], tot, att => Except.ok (tot, att)
  | (sec, cfg) :: rest, tot, att =>
    match cfg.library_id with
    | none => Except.error ("library_id mancante", att ++ [sec])
    | some _ =>
      if cfg.sync = "incremental" then
        match imp sec with
        | Except.error e => Except.error (e, att ++ [sec])
        | Except.ok n => runBatchAux imp rest (tot + n) (att ++ [sec])
      else
        runBatchAux imp rest tot (att ++ [sec])

def runBatch (imp : String → Except String Nat)
    (batch : List (String × SectionCfg)) :
    Except (String × List String) (Nat × List String) :=
  runBatchAux imp batch 0 []

/- ------------------------------------------------------------------
   Module loading.  memento_import.py opens with
   from memento_sdk import (fetch_incremental_pages, fetch_all_entries_full)
   so importing the module resolves those names against the top-level
   definitions of memento_sdk.py; a missing name raises ImportError
   before any statement of the module body can run.
   ------------------------------------------------------------------ -/

def mementoSdkModuleDefs : List String :=
  ["_get_with_backoff", "DEFAULT_DB_PATH", "get_default_db_path", "CFG",
   "_load_local_cfg", "_cfg_get", "_sanitize_url", "_base_url", "_ts", "_log",
   "_debug_http", "_timeout", "_token_params", "_raise_on_404", "_ensure_ok",
   "list_libraries", "fetch_all_entries_full", "probe_capabilities",
   "fetch_incremental", "fetch_entry_detail"]

def mementoImportFromSdkImports : List String :=
  ["fetch_incremental_pages", "fetch_all_entries_full"]

def loadMementoImport : Except String Unit :=
  match mementoImportFromSdkImports.filter
      (fun n => ! mementoSdkModuleDefs.contains n) with
  | [] => Except.ok ()
  | n :: _ => Except.error n

/- Calling memento_import.run_batch requires loading memento_import
   first; on ImportError nothing of the body runs, so the import oracle
   (standing for all network and database effects) is never consulted. -/
def runBatchEntry (dbPath : String) (batchCfg : List (String × SectionCfg))
    (imp : String → Except String Nat) : Except String Nat :=
  match loadMementoImport with
  | Except.error n => Except.error n
  | Except.ok _ =>
    match runBatch imp batchCfg with
    | Except.error x => Except.error x.1
    | Except.ok r => Except.ok r.1

def mementoImportBatchEntry (dbPath batchPath : String)
    (batchCfg : List (String × SectionCfg))
    (imp : String → Except String Nat) : Except String Nat :=
  match loadMementoImport with
  | Except.error n => Except.error n
  | Except.ok _ => runBatchEntry dbPath batchCfg imp

/- ------------------------------------------------------------------
   Pagination walker: the control loop of fetch_all_entries_full
   (lines 257-331 of memento_sdk.py).  A response is reduced to its
   pagination signals; the server is a function from the request shape
   to the response it returns.  The detail backfill inside the loop does
   not change pagination control and is omitted here.  Fuel counts loop
   iterations: a run whose result is none for every fuel value models
   the while-True loop never terminating.  The request trace records the
   GET issued by each iteration.
   ------------------------------------------------------------------ -/

structure PageResp where
  rows : List Entry := []
  next : Option String := none
  pageToken : Option String := none
  total : Option Int := none
  offset : Option Int := none
  page : Option Int := none
  pages : Option Int := none
deriving DecidableEq

inductive PageReq where
  | start
  | url (u : String)
  | token (t : String)
  | offset (o : Int)
  | page (p : Int)
deriving DecidableEq

def fetchAllEntriesLoop (srv : PageReq → PageResp) (limit : Int) :
    Nat → PageReq → List Entry → List PageReq →
      Option (List Entry) × List PageReq
  | 0, _, _, trace => (none, trace)
  | fuel + 1, req, acc, trace =>
    let d := srv req
    let acc2 := acc ++ d.rows
    let trace2 := trace ++ [req]
    match d.next with
    | some u => fetchAllEntriesLoop srv limit fuel (PageReq.url u) acc2 trace2
    | none =>
      match d.pageToken with
      | some tk => fetchAllEntriesLoop srv limit fuel (PageReq.token tk) acc2 trace2
      | none =>
        match d.total, d.offset, d.page, d.pages with
        | some t, some o, _, _ =>
          if t ≤ o + limit then (some acc2, trace2)
          else fetchAllEntriesLoop srv limit fuel (PageReq.offset (o + limit)) acc2 trace2
        | _, _, some p, some ps =>
          if ps ≤ p + 1 then (some acc2, trace2)
          else fetchAllEntriesLoop srv limit fuel (PageReq.page (p + 1)) acc2 trace2
        | _, _, _, _ => (some acc2, trace2)

/- A server whose reported total and offset never change: every response
   says total=100, offset=0, whatever the walker asks for. -/
def staticOffsetSrv : PageReq → PageResp :=
  fun _ =>
    { rows := [{ top := [("id", "s1")], fields := [("id", "s1")] }]
      total := some 100
      offset := some 0 }

/- A well-behaved offset-convention server: it echoes the requested
   offset back in the response and reports a fixed total. -/
def echoOffsetSrv (pageAt : Int → List Entry) (total limit : Int) :
    PageReq → PageResp :=
  fun req =>
    match req with
    | PageReq.start => { rows := pageAt 0, total := some total, offset := some 0 }
    | PageReq.offset o => { rows := pageAt o, total := some total, offset := some o }
    | _ => { rows := [], total := some total, offset := some 0 }

/- ------------------------------------------------------------------
   Detail enrichment phase of fetch_incremental (lines 464-510 of
   memento_sdk.py).  The per-record detail pipeline (_get_with_backoff,
   _raise_on_404, _ensure_ok, .json()) is an oracle from the entry id to
   either the detail record or the exception message caught by the
   `except Exception` handler.
   ------------------------------------------------------------------ -/

def entryIdOf (e : Entry) : Option String :=
  match truthyStr (List.lookup "id" e.top) with
  | some v => some v
  | none => truthyStr (List.lookup "entry_id" e.top)

def enrichStep (detail : String → Except String Entry)
    (st : List Entry × Nat) (e : Entry) : List Entry × Nat :=
  match entryIdOf e with
  | none => (st.1 ++ [e], st.2)
  | some eid =>
    match detail eid with
    | Except.ok d => (st.1 ++ [d], st.2)
    | Except.error _ => (st.1, st.2 + 1)

def enrichDetails (detail : String → Except String Entry)
    (rows : List Entry) : List Entry × Nat :=
  rows.foldl (enrichStep detail) ([], 0)

def needDetail (rows : List Entry) : Bool :=
  match rows with
  | [] => false
  | e :: _ => e.fields.isEmpty

/- The tail of fetch_incremental: run the detail loop only when the list
   view came without field payloads; the second component counts the
   failed detail fetches (len(failed_ids)). -/
def fetchIncrementalEnrichPhase (detail : String → Except String Entry)
    (rows : List Entry) : List Entry × Nat :=
  if needDetail rows then enrichDetails detail rows else (rows, 0)

/- ------------------------------------------------------------------
   Diagnostics of the fetch client.  The debug log line of
   _get_with_backoff redacts the token query parameter before printing;
   _raise_on_404 embeds r.request.method, r.url (the final URL built by
   requests from the url and the UNredacted params), the status and the
   body into the RuntimeError message.
   ------------------------------------------------------------------ -/

def redactParams (params : List (String × String)) : List (String × String) :=
  params.map (fun kv => if kv.1 = "token" then (kv.1, "***") else kv)

def fmtParams (params : List (String × String)) : String :=
  String.intercalate "&" (params.map (fun kv => kv.1 ++ "=" ++ kv.2))

def debugLogLine (url : String) (params : List (String × String))
    (tries maxTries : Nat) : String :=
  "SDK -> GET " ++ url ++ " params=" ++ fmtParams (redactParams params) ++
    " try=" ++ toString (tries + 1) ++ "/" ++ toString maxTries

/- The final URL of the request as requests reports it in r.url. -/
def requestUrl (url : String) (params : List (String × String)) : String :=
  url ++ "?" ++ fmtParams params

def raiseOn404Msg (path method url : String) (params : List (String × String))
    (bodyText : String) : String :=
  "Memento API ha risposto 404 su " ++ path ++ ". URL: " ++ method ++ " " ++
    requestUrl url params ++ "\nStatus: 404\nBody: " ++ bodyText

/- ------------------------------------------------------------------
   Concrete records, tables and configurations used by counterexamples
   and witnesses.
   ------------------------------------------------------------------ -/

def hdrsIdMod : List String := ["id", "modified"]

def entryA : Entry :=
  { top := [("id", "a1"), ("modified", "2024-01-03T10:00:00+00:00")]
    fields := [("id", "a1"), ("modified", "2024-01-03T10:00:00+00:00")] }

def entryB : Entry :=
  { top := [("id", "b2"), ("modified", "2024-01-01T00:00:00+00:00")]
    fields := [("id", "b2"), ("modified", "2024-01-01T00:00:00+00:00")] }

/- The fallback-schema path of import_library_incremental calls
   _ensure_table_schema with pk = "", so the created table has no
   primary key. -/
def tableNoPk : Table := ensureTableSchema none hdrsIdMod ""

def tableWithPk : Table := ensureTableSchema none hdrsIdMod "id"

def st0 : SyncState := { table := tableNoPk, checkpoint := none, inserted := 0 }

def entryEmptyFields : Entry := { top := [], fields := [] }

def stGood : SyncState := (runPages true hdrsIdMod st0 [[entryA]]).1

def entryNoFields : Entry := { top := [("id", "x1")], fields := [] }

def detailAlwaysFails : String → Except String Entry :=
  fun eid => Except.error ("HTTP 500 during detail " ++ eid)

def cfgAlpha : SectionCfg :=
  { table := "t1", library_id := some "L1", sync := "incremental" }

def cfgBeta : SectionCfg :=
  { table := "t2", library_id := some "L2", sync := "incremental" }

def batchTwo : List (String × SectionCfg) := [("alpha", cfgAlpha), ("beta", cfgBeta)]

def impBoom : String → Except String Nat :=
  fun sec => if sec = "alpha" then Except.error "boom" else Except.ok 5

theorem backoffLoop_429_prefix (attempts : Nat → HttpOutcome) :
    ∀ (g gas tries : Nat) (r : Option Nat) (e : Option String),
      (∀ j, j < g → attempts (tries + j) = HttpOutcome.resp 429) →
      ∃ r2 e2, backoffLoop attempts (g + gas) tries r e =
          backoffLoop attempts gas (tries + g) r2 e2 ∧
        ((g = 0 ∧ r2 = r ∧ e2 = e) ∨ (0 < g ∧ r2 = some 429 ∧ e2 = none)) := by
  intro g
  induction g with
  | zero =>
    intro gas tries r e _
    exact ⟨r, e, by simp, Or.inl ⟨rfl, rfl, rfl⟩⟩
  | succ g ih =>
    intro gas tries r e h
    have h0 : attempts tries = HttpOutcome.resp 429 := by
      have := h 0 (Nat.succ_pos g)
      simpa using this
    have hstep : backoffLoop attempts (g + 1 + gas) tries r e =
        backoffLoop attempts (g + gas) (tries + 1) (some 429) none := by
      have hg : g + 1 + gas = (g + gas) + 1 := by omega
      rw [hg]
      simp [backoffLoop, h0, terminalOk, retryableStatus]
    obtain ⟨r2, e2, heq, hcase⟩ := ih gas (tries + 1) (some 429) none
      (by
        intro j hj
        have := h (j + 1) (by omega)
        have harg : tries + 1 + j = tries + (j + 1) := by omega
        rw [harg]
        exact this)
    refine ⟨r2, e2, ?_, ?_⟩
    · rw [hstep, heq]
      have : tries + 1 + g = tries + (g + 1) := by omega
      rw [this]
    · rcases hcase with ⟨_, hr, he⟩ | ⟨_, hr, he⟩
      · exact Or.inr ⟨Nat.succ_pos g, by simp [hr], by simp [he]⟩
      · exact Or.inr ⟨Nat.succ_pos g, hr, he⟩

/-- C6: if the endpoint answers 429 on the first k attempts (k below the
retry cap) and a success status afterwards, _get_with_backoff returns the
success response; if it answers 429 on every attempt up to the cap, the
loop exhausts its budget and surfaces the last 429 failure response to the
caller instead of a success. -/
theorem c6_retry_bound (maxTries k s : Nat) (A B : Nat → HttpOutcome)
    (hk : k < maxTries)
    (hA : ∀ j, j < k → A j = HttpOutcome.resp 429)
    (hAk : A k = HttpOutcome.resp s) (hs : s < 400)
    (hB : ∀ j, j < maxTries → B j = HttpOutcome.resp 429)
    (hpos : 0 < maxTries) :
    getWithBackoff A maxTries = GetResult.returned s ∧
      getWithBackoff B maxTries = GetResult.returned 429 := by
  constructor
  · obtain ⟨m, hm⟩ : ∃ m, maxTries = k + (m + 1) := ⟨maxTries - k - 1, by omega⟩
    obtain ⟨r2, e2, heq, _⟩ := backoffLoop_429_prefix A k (m + 1) 0 none none
      (by intro j hj; simpa using hA j hj)
    have hterm : terminalOk s = true := by
      simp [terminalOk]
      omega
    unfold getWithBackoff
    rw [hm, heq]
    simp only [Nat.zero_add]
    simp [backoffLoop, hAk, hterm]
  · obtain ⟨r2, e2, heq, hcase⟩ := backoffLoop_429_prefix B maxTries 0 0 none none
      (by intro j hj; simpa using hB j hj)
    have hr2 : r2 = some 429 := by
      rcases hcase with ⟨h0, _, _⟩ | ⟨_, hr, _⟩
      · omega
      · exact hr
    simp only [Nat.add_zero, Nat.zero_add] at heq
    unfold getWithBackoff
    rw [heq, hr2]
    simp [backoffLoop]

/-- Witness for C6 at a concrete attempt sequence: two 429 responses then
a 200 with cap 8, and an all-429 sequence with cap 8. -/
theorem c6_retry_bound_witness :
    getWithBackoff (fun i => if i < 2 then HttpOutcome.resp 429 else HttpOutcome.resp 200) 8 =
        GetResult.returned 200 ∧
      getWithBackoff (fun _ => HttpOutcome.resp 429) 8 = GetResult.returned 429 :=
  c6_retry_bound 8 2 200 _ _ (by decide) (by decide) (by decide) (by decide)
    (by decide) (by decide)

theorem backoffLoop_retryable_prefix (A : Nat → HttpOutcome) :
    ∀ (g gas tries : Nat) (r : Option Nat) (e : Option String),
      (∀ i, i < g → A (tries + i) = HttpOutcome.resp 429 ∨
        ∃ x, A (tries + i) = HttpOutcome.netExc x) →
      ∃ r2 e2, backoffLoop A (g + gas) tries r e =
        backoffLoop A gas (tries + g) r2 e2 := by
  intro g
  induction g with
  | zero =>
    intro gas tries r e _
    exact ⟨r, e, by simp⟩
  | succ g ih =>
    intro gas tries r e h
    have h0 := h 0 (Nat.succ_pos g)
    have hg : g + 1 + gas = (g + gas) + 1 := by omega
    have hrest : ∀ i, i < g → A (tries + 1 + i) = HttpOutcome.resp 429 ∨
        ∃ x, A (tries + 1 + i) = HttpOutcome.netExc x := by
      intro i hi
      have := h (i + 1) (by omega)
      have harg : tries + 1 + i = tries + (i + 1) := by omega
      rw [harg]
      exact this
    rcases h0 with h429 | ⟨x, hx⟩
    · have h429' : A tries = HttpOutcome.resp 429 := by simpa using h429
      obtain ⟨r2, e2, heq⟩ := ih gas (tries + 1) (some 429) none hrest
      refine ⟨r2, e2, ?_⟩
      rw [hg]
      have hstep : backoffLoop A ((g + gas) + 1) tries r e =
          backoffLoop A (g + gas) (tries + 1) (some 429) none := by
        simp [backoffLoop, h429', terminalOk, retryableStatus]
      rw [hstep, heq]
      have : tries + 1 + g = tries + (g + 1) := by omega
      rw [this]
    · have hx' : A tries = HttpOutcome.netExc x := by simpa using hx
      obtain ⟨r2, e2, heq⟩ := ih gas (tries + 1) r (some x) hrest
      refine ⟨r2, e2, ?_⟩
      rw [hg]
      have hstep : backoffLoop A ((g + gas) + 1) tries r e =
          backoffLoop A (g + gas) (tries + 1) r (some x) := by
        simp [backoffLoop, hx']
      rw [hstep, heq]
      have : tries + 1 + g = tries + (g + 1) := by omega
      rw [this]

theorem backoffLoop_net_tail (A : Nat → HttpOutcome) :
    ∀ (g tries : Nat) (e : Option String),
      (∀ i, i < g → ∃ x, A (tries + i) = HttpOutcome.netExc x) →
      backoffLoop A g tries (some 429) e = GetResult.returned 429 := by
  intro g
  induction g with
  | zero =>
    intro tries e _
    simp [backoffLoop]
  | succ g ih =>
    intro tries e h
    obtain ⟨x, hx⟩ := h 0 (Nat.succ_pos g)
    have hx' : A tries = HttpOutcome.netExc x := by simpa using hx
    have hrest : ∀ i, i < g → ∃ y, A (tries + 1 + i) = HttpOutcome.netExc y := by
      intro i hi
      have := h (i + 1) (by omega)
      have harg : tries + 1 + i = tries + (i + 1) := by omega
      rw [harg]
      exact this
    simp [backoffLoop, hx']
    exact ih (tries + 1) (some x) hrest

theorem backoffLoop_all_net (B : Nat → HttpOutcome) (es : Nat → String) :
    ∀ (g tries : Nat), 0 < g →
      (∀ i, i < g → B (tries + i) = HttpOutcome.netExc (es (tries + i))) →
      ∀ e : Option String,
        backoffLoop B g tries none e = GetResult.raised (es (tries + g - 1)) := by
  intro g
  induction g with
  | zero => intro tries h; omega
  | succ g ih =>
    intro tries _ h e
    have h0 : B tries = HttpOutcome.netExc (es tries) := by
      simpa using h 0 (Nat.succ_pos g)
    have hstep : backoffLoop B (g + 1) tries none e =
        backoffLoop B g (tries + 1) none (some (es tries)) := by
      simp [backoffLoop, h0]
    rw [hstep]
    rcases Nat.eq_zero_or_pos g with hg0 | hgpos
    · subst hg0
      simp [backoffLoop]
    · have hrest : ∀ i, i < g → B (tries + 1 + i) = HttpOutcome.netExc (es (tries + 1 + i)) := by
        intro i hi
        have := h (i + 1) (by omega)
        have harg : tries + 1 + i = tries + (i + 1) := by omega
        rw [harg]
        exact this
      rw [ih (tries + 1) hgpos hrest (some (es tries))]
      have : tries + 1 + g - 1 = tries + (g + 1) - 1 := by omega
      rw [this]

/-- C10: when _get_with_backoff exhausts its attempt budget it raises the
last recorded network exception only if no HTTP response was ever received;
if an earlier attempt obtained a retryable 429 response and every later
attempt failed with a network exception, the loop ends with r still bound
to that stale response and returns it to the caller instead of raising. -/
theorem c10_stale_response (maxTries j : Nat) (A B : Nat → HttpOutcome)
    (es : Nat → String)
    (hj : j < maxTries) (hAj : A j = HttpOutcome.resp 429)
    (hAbefore : ∀ i, i < j → A i = HttpOutcome.resp 429 ∨
      ∃ x, A i = HttpOutcome.netExc x)
    (hAafter : ∀ i, j < i → i < maxTries → ∃ x, A i = HttpOutcome.netExc x)
    (hB : ∀ i, i < maxTries → B i = HttpOutcome.netExc (es i))
    (hpos : 0 < maxTries) :
    getWithBackoff A maxTries = GetResult.returned 429 ∧
      getWithBackoff B maxTries = GetResult.raised (es (maxTries - 1)) := by
  constructor
  · obtain ⟨m, hm⟩ : ∃ m, maxTries = j + (m + 1) := ⟨maxTries - j - 1, by omega⟩
    obtain ⟨r2, e2, heq⟩ := backoffLoop_retryable_prefix A j (m + 1) 0 none none
      (by intro i hi; simpa using hAbefore i hi)
    unfold getWithBackoff
    rw [hm, heq]
    simp only [Nat.zero_add]
    have hstep : backoffLoop A (m + 1) j r2 e2 =
        backoffLoop A m (j + 1) (some 429) none := by
      simp [backoffLoop, hAj, terminalOk, retryableStatus]
    rw [hstep]
    exact backoffLoop_net_tail A m (j + 1) none
      (by
        intro i hi
        exact hAafter (j + 1 + i) (by omega) (by omega))
  · unfold getWithBackoff
    rw [backoffLoop_all_net B es maxTries 0 hpos
      (by intro i hi; simpa using hB i hi) none]
    simp

/-- Witness for C10 at concrete attempt sequences: a 429 on the first
attempt followed by network failures returns the stale 429 response, and
an all-network-failure sequence raises the last exception. -/
theorem c10_stale_response_witness :
    getWithBackoff (fun i => if i == 0 then HttpOutcome.resp 429
        else HttpOutcome.netExc "conn reset") 3 = GetResult.returned 429 ∧
      getWithBackoff (fun _ => HttpOutcome.netExc "timeout") 3 =
        GetResult.raised ((fun _ => "timeout") (3 - 1)) :=
  c10_stale_response 3 0 _ _ (fun _ => "timeout") (by decide) (by decide)
    (fun i hi => absurd hi (by omega))
    (fun i h1 _ => ⟨"conn reset", by
      have hne : i ≠ 0 := Nat.pos_iff_ne_zero.mp h1
      simp [hne]⟩)
    (by decide) (by decide)

/-- C1: memento_import.py imports fetch_incremental_pages from memento_sdk,
but memento_sdk defines no such name, so loading the module raises
ImportError and both public entry points run_batch and memento_import_batch
fail for every database path and batch configuration before the import
oracle (standing for all network calls and database writes) is consulted. -/
theorem c1_import_unreachable :
    mementoSdkModuleDefs.contains "fetch_incremental_pages" = false ∧
      (∀ (dbPath : String) (batchCfg : List (String × SectionCfg))
          (imp : String → Except String Nat),
        runBatchEntry dbPath batchCfg imp = Except.error "fetch_incremental_pages") ∧
      (∀ (dbPath batchPath : String) (batchCfg : List (String × SectionCfg))
          (imp : String → Except String Nat),
        mementoImportBatchEntry dbPath batchPath batchCfg imp =
          Except.error "fetch_incremental_pages") :=
  ⟨rfl, fun _ _ _ => rfl, fun _ _ _ _ => rfl⟩

theorem insertChunk_false_ok (headers : List String) (t : Table) (chunk : List Entry) :
    insertChunk false headers t chunk = Except.ok (applyChunk headers t chunk) := by
  simp [insertChunk]

theorem runPages_false_no_error (headers : List String) :
    ∀ (pages : List (List Entry)) (st : SyncState),
      (runPages false headers st pages).2 = none := by
  intro pages
  induction pages with
  | nil => intro st; rfl
  | cons c rest ih =>
    intro st
    by_cases hc : c.isEmpty
    · simpa [runPages, hc] using ih st
    · simpa [runPages, hc, insertChunk_false_ok] using ih _

theorem runPages_append_ok (enrich : Bool) (headers : List String) :
    ∀ (p1 p2 : List (List Entry)) (st st1 : SyncState),
      runPages enrich headers st p1 = (st1, none) →
      runPages enrich headers st (p1 ++ p2) = runPages enrich headers st1 p2 := by
  intro p1
  induction p1 with
  | nil =>
    intro p2 st st1 h
    simp only [runPages] at h
    obtain ⟨rfl, -⟩ := Prod.mk.injEq .. |>.mp h
    simp
  | cons c rest ih =>
    intro p2 st st1 h
    by_cases hc : c.isEmpty
    · have h2 : runPages enrich headers st rest = (st1, none) := by
        simpa [runPages, hc] using h
      have h3 := ih p2 st st1 h2
      simpa [runPages, hc] using h3
    · cases hins : insertChunk enrich headers st.table c with
      | error e =>
        rw [show (c :: rest) ++ p2 = c :: (rest ++ p2) from rfl]
        simp only [runPages, hc, if_neg, Bool.not_eq_true, hins] at h
        simp at h
      | ok t2 =>
        have h2 := h
        simp only [runPages, hins] at h2 ⊢
        rw [if_neg hc] at h2
        rw [if_neg hc]
        exact ih p2 _ st1 h2

theorem getLast?_append_singleton {α : Type} (l : List α) (a : α) :
    (l ++ [a]).getLast? = some a :=
  List.getLast?_concat _

/-- C2 counterexample: a single committed page holding two records whose
modification times arrive in descending order.  The stored checkpoint after
the run is the last record's time 2024-01-01, while the maximum
modification timestamp across all fetched records is 2024-01-03, so the
checkpoint does not equal the maximum as the claim states. -/
theorem c2_checkpoint_counterexample :
    ((runPages false hdrsIdMod st0 [[entryA, entryB]]).1).checkpoint =
        some "2024-01-01T00:00:00+00:00" ∧
      specMaxModified [[entryA, entryB]] = some "2024-01-03T10:00:00+00:00" ∧
      ((runPages false hdrsIdMod st0 [[entryA, entryB]]).1).checkpoint ≠
        specMaxModified [[entryA, entryB]] := by
  refine ⟨by decide, by decide, by decide⟩

/-- C2 amended: after a successful incremental run the stored checkpoint
equals the "modified" value of the LAST record of the last non-empty page
(whenever that value is present and non-empty), whatever the modification
times of all other records of the run; it equals the run's maximum tn only
when the final committed record happens to carry tn. -/
theorem c2_checkpoint_amended (headers : List String) (st : SyncState)
    (pages : List (List Entry)) (chunk : List Entry) (e : Entry) (m : String)
    (hm : List.lookup "modified" e.top = some m) (hne : m ≠ "") :
    ((runPages false headers st (pages ++ [chunk ++ [e]])).1).checkpoint = some m := by
  obtain ⟨st1, h1⟩ : ∃ st1, runPages false headers st pages = (st1, none) :=
    ⟨(runPages false headers st pages).1,
      Prod.ext rfl (runPages_false_no_error headers pages st)⟩
  rw [runPages_append_ok false headers pages [chunk ++ [e]] st st1 h1]
  have hne2 : (chunk ++ [e]).isEmpty = false := by simp
  simp [runPages, hne2, insertChunk_false_ok, getLast?_append_singleton, hm,
    truthyStr, hne]

/-- Witness for the amended C2 at a concrete run of one one-record page. -/
theorem c2_checkpoint_amended_witness :
    ((runPages false hdrsIdMod st0 ([] ++ [[] ++ [entryB]])).1).checkpoint =
      some "2024-01-01T00:00:00+00:00" :=
  c2_checkpoint_amended hdrsIdMod st0 [] [] entryB "2024-01-01T00:00:00+00:00"
    rfl (by decide)

theorem optStrBeqComm (a b : Option String) : (a == b) = (b == a) := by
  by_cases h : a = b
  · subst h; rfl
  · rw [beq_eq_false_iff_ne.mpr h, beq_eq_false_iff_ne.mpr (Ne.symm h)]

theorem foldl_insRow_char (pc : String) :
    ∀ (rs U : List (List (String × String))),
      rs.foldl (insRow (some pc)) U =
        U.filter (fun r => ! pkMem pc (List.lookup pc r) rs) ++ dedupLast pc rs := by
  intro rs
  induction rs with
  | nil =>
    intro U
    simp [dedupLast, pkMem]
  | cons r rest ih =>
    intro U
    have step : (r :: rest).foldl (insRow (some pc)) U =
        rest.foldl (insRow (some pc)) (insRow (some pc) U r) := rfl
    rw [step, ih]
    rw [show insRow (some pc) U r =
        U.filter (fun x => ! (List.lookup pc x == List.lookup pc r)) ++ [r] from rfl]
    rw [List.filter_append, List.filter_filter]
    have hpred : ∀ x, ((! pkMem pc (List.lookup pc x) rest) &&
        (! (List.lookup pc x == List.lookup pc r))) =
        (! pkMem pc (List.lookup pc x) (r :: rest)) := by
      intro x
      simp only [pkMem, List.any_cons, Bool.not_or, Bool.and_comm]
      rw [optStrBeqComm]
    rw [List.filter_congr (fun x _ => hpred x)]
    by_cases hmem : pkMem pc (List.lookup pc r) rest
    · have hfr : (List.filter (fun x => ! pkMem pc (List.lookup pc x) rest) [r]) = [] := by
        simp [hmem]
      have hded : dedupLast pc (r :: rest) = dedupLast pc rest := by
        simp [dedupLast, hmem]
      rw [hfr, hded]
      simp
    · have hmem' : pkMem pc (List.lookup pc r) rest = false := by
        simpa using hmem
      have hfr : (List.filter (fun x => ! pkMem pc (List.lookup pc x) rest) [r]) = [r] := by
        simp [hmem']
      have hded : dedupLast pc (r :: rest) = r :: dedupLast pc rest := by
        simp [dedupLast, hmem']
      rw [hfr, hded]
      simp

theorem mem_dedupLast (pc : String) :
    ∀ (rs : List (List (String × String))) (x : List (String × String)),
      x ∈ dedupLast pc rs → x ∈ rs := by
  intro rs
  induction rs with
  | nil => intro x h; simp [dedupLast] at h
  | cons r rest ih =>
    intro x h
    by_cases hm : pkMem pc (List.lookup pc r) rest
    · rw [dedupLast, if_pos hm] at h
      exact List.mem_cons_of_mem _ (ih x h)
    · rw [dedupLast, if_neg hm] at h
      rcases List.mem_cons.mp h with rfl | h2
      · exact List.mem_cons_self _ _
      · exact List.mem_cons_of_mem _ (ih x h2)

theorem pkMem_of_mem (pc : String) (rs : List (List (String × String)))
    (x : List (String × String)) (h : x ∈ rs) :
    pkMem pc (List.lookup pc x) rs = true := by
  simp only [pkMem, List.any_eq_true]
  exact ⟨x, h, by simp⟩

theorem filter_dedupLast_nil (pc : String) (rs : List (List (String × String))) :
    (dedupLast pc rs).filter (fun r => ! pkMem pc (List.lookup pc r) rs) = [] := by
  rw [List.filter_eq_nil_iff]
  intro a ha
  have := pkMem_of_mem pc rs a (mem_dedupLast pc rs a ha)
  simp [this]

theorem insRow_foldl_idem (pc : String) (U rs : List (List (String × String))) :
    rs.foldl (insRow (some pc)) (rs.foldl (insRow (some pc)) U) =
      rs.foldl (insRow (some pc)) U := by
  rw [foldl_insRow_char pc rs U, foldl_insRow_char pc rs]
  rw [List.filter_append, List.filter_filter, filter_dedupLast_nil]
  rw [List.filter_congr (fun x _ => Bool.and_self _)]
  simp

/-- C3 counterexample: the fallback-schema path of
import_library_incremental reconciles the table with pk = "", so the
created table has no primary key; INSERT OR REPLACE then degenerates to a
plain insert and applying the same one-record page twice leaves two rows
where applying it once leaves one. -/
theorem c3_upsert_counterexample :
    (insertChunk false hdrsIdMod tableNoPk [entryA]).map (fun t => t.rows.length) =
        Except.ok 1 ∧
      ((insertChunk false hdrsIdMod tableNoPk [entryA]).bind
          (fun t1 => insertChunk false hdrsIdMod t1 [entryA])).map
        (fun t => t.rows.length) = Except.ok 2 :=
  ⟨rfl, rfl⟩

/-- C3 amended: for a reconciled table that does carry a primary-key
column (the reference export designates an external-id column, so
_ensure_table_schema declares it PRIMARY KEY), inserting the same page
twice, each insert committed, yields exactly the table produced by
inserting it once: the second pass replaces each row wholesale by
external id, with no partial-field merge and no duplicate rows.  Without
a primary key the insert duplicates rows (see the counterexample). -/
theorem c3_upsert_idempotent (t : Table) (pc : String) (hpk : t.pkCol = some pc)
    (headers : List String) (chunk : List Entry) :
    ∃ t1, insertChunk false headers t chunk = Except.ok t1 ∧
      insertChunk false headers t1 chunk = Except.ok t1 := by
  obtain ⟨cols, pkc, rows⟩ := t
  have hpk2 : pkc = some pc := hpk
  subst hpk2
  refine ⟨applyChunk headers ⟨cols, some pc, rows⟩ chunk,
    insertChunk_false_ok headers _ chunk, ?_⟩
  rw [insertChunk_false_ok]
  simp only [applyChunk]
  rw [insRow_foldl_idem]

/-- Witness for the amended C3: a table created with an id primary key
absorbs the same one-record page twice with no change after the first. -/
theorem c3_upsert_idempotent_witness :
    ∃ t1, insertChunk false hdrsIdMod tableWithPk [entryA] = Except.ok t1 ∧
      insertChunk false hdrsIdMod t1 [entryA] = Except.ok t1 :=
  c3_upsert_idempotent tableWithPk "id" rfl hdrsIdMod [entryA]

theorem runBatchAux_append_ok (imp : String → Except String Nat) :
    ∀ (xs ys : List (String × SectionCfg)) (tot n : Nat) (att a : List String),
      runBatchAux imp xs tot att = Except.ok (n, a) →
      runBatchAux imp (xs ++ ys) tot att = runBatchAux imp ys n a := by
  intro xs
  induction xs with
  | nil =>
    intro ys tot n att a h
    simp only [runBatchAux] at h
    obtain ⟨h1, h2⟩ := Prod.mk.injEq .. |>.mp (Except.ok.injEq .. |>.mp h)
    subst h1; subst h2
    simp
  | cons x rest ih =>
    intro ys tot n att a h
    obtain ⟨sec, cfg⟩ := x
    cases hlid : cfg.library_id with
    | none => simp [runBatchAux, hlid] at h
    | some lid =>
      by_cases hsync : cfg.sync = "incremental"
      · cases himp : imp sec with
        | error e => simp [runBatchAux, hlid, hsync, himp] at h
        | ok k =>
          have h2 : runBatchAux imp rest (tot + k) (att ++ [sec]) = Except.ok (n, a) := by
            simpa [runBatchAux, hlid, hsync, himp] using h
          have h3 := ih ys (tot + k) n (att ++ [sec]) a h2
          simpa [runBatchAux, hlid, hsync, himp] using h3
      · have h2 : runBatchAux imp rest tot (att ++ [sec]) = Except.ok (n, a) := by
          simpa [runBatchAux, hlid, hsync] using h
        have h3 := ih ys tot n (att ++ [sec]) a h2
        simpa [runBatchAux, hlid, hsync] using h3

/-- C4 counterexample: a batch of two configured collections where the
first collection's incremental import raises a fatal error.  run_batch
has no per-section handler, so the exception reaches the outer except,
is logged and re-raised, and the whole batch ends: the error carries an
attempted-section list of only ["alpha"], so the configured section
"beta" is never attempted, contradicting the claimed isolation. -/
theorem c4_isolation_counterexample :
    runBatch impBoom batchTwo = Except.error ("boom", ["alpha"]) ∧
      "beta" ∉ (["alpha"] : List String) :=
  ⟨rfl, by decide⟩

/-- C4 amended: a fatal exception while syncing one collection aborts the
entire run_batch invocation: the error propagates (after being logged)
and none of the collections configured after the failing one is
attempted.  A missing library_id behaves the same way, aborting the whole
batch rather than failing only that collection. -/
theorem c4_batch_abort (imp : String → Except String Nat)
    (pre rest : List (String × SectionCfg)) (sec : String) (cfg : SectionCfg)
    (n : Nat) (att : List String) (e : String)
    (hpre : runBatch imp pre = Except.ok (n, att))
    (hfail : (cfg.library_id = none ∧ e = "library_id mancante") ∨
      (cfg.library_id ≠ none ∧ cfg.sync = "incremental" ∧
        imp sec = Except.error e)) :
    runBatch imp (pre ++ (sec, cfg) :: rest) = Except.error (e, att ++ [sec]) := by
  unfold runBatch at hpre ⊢
  rw [runBatchAux_append_ok imp pre ((sec, cfg) :: rest) 0 n [] att hpre]
  rcases hfail with ⟨hnone, rfl⟩ | ⟨hsome, hsync, himp⟩
  · simp [runBatchAux, hnone]
  · obtain ⟨lid, hlid⟩ := Option.ne_none_iff_exists'.mp hsome
    simp [runBatchAux, hlid, hsync, himp]

/-- Witness for the amended C4 at the concrete two-collection batch. -/
theorem c4_batch_abort_witness :
    runBatch impBoom ([] ++ ("alpha", cfgAlpha) :: [("beta", cfgBeta)]) =
      Except.error ("boom", [] ++ ["alpha"]) :=
  c4_batch_abort impBoom [] [("beta", cfgBeta)] "alpha" cfgAlpha 0 [] "boom"
    rfl (Or.inr ⟨by simp [cfgAlpha], rfl, rfl⟩)

/-- C5: a failure inside a page's write (in particular the fail-fast
error raised when enrichment is enabled and some mapped row is blank in
every reference column) rolls back exactly that page: the run ends with
the state reached after the previously committed pages — table rows and
stored checkpoint unchanged — and the exception is re-raised to the
caller; later pages are not attempted. -/
theorem c5_page_rollback (enrich : Bool) (headers : List String)
    (st stg : SyncState) (good : List (List Entry)) (bad : List Entry)
    (rest : List (List Entry)) (msg : String)
    (hgood : runPages enrich headers st good = (stg, none))
    (hne : bad.isEmpty = false)
    (hbad : insertChunk enrich headers stg.table bad = Except.error msg) :
    runPages enrich headers st (good ++ bad :: rest) = (stg, some msg) := by
  rw [runPages_append_ok enrich headers good (bad :: rest) st stg hgood]
  simp [runPages, hne, hbad]

/-- Witness for C5: after one good committed page, a page whose only
record maps to a row blank on every header triggers the fail-fast error
and the run ends in the post-first-page state with the error. -/
theorem c5_page_rollback_witness :
    runPages true hdrsIdMod st0 ([[entryA]] ++ [entryEmptyFields] :: []) =
      (stGood, some "fields vuoti dopo enrichment") :=
  c5_page_rollback true hdrsIdMod st0 stGood [[entryA]] [entryEmptyFields] []
    "fields vuoti dopo enrichment" rfl rfl rfl

theorem staticOffset_no_progress :
    ∀ (fuel : Nat) (req : PageReq) (acc : List Entry) (tr : List PageReq),
      (fetchAllEntriesLoop staticOffsetSrv 10 fuel req acc tr).1 = none := by
  intro fuel
  induction fuel with
  | zero => intro req acc tr; rfl
  | succ f ih =>
    intro req acc tr
    have hcond : ¬ ((100 : Int) ≤ 0 + 10) := by norm_num
    simp only [fetchAllEntriesLoop, staticOffsetSrv]
    rw [if_neg hcond]
    exact ih _ _ _

/-- C7 counterexample: against a server whose reported total and offset
stay static across responses (total=100, offset=0 with page size 10), the
pagination walker of fetch_all_entries_full recomputes the next offset
from the server-reported one and never terminates: no amount of loop
iterations produces a result, refuting the claim that a static
total/offset is treated as no progress and stopped. -/
theorem c7_termination_counterexample :
    ¬ ∃ (fuel : Nat) (rows : List Entry) (tr : List PageReq),
        fetchAllEntriesLoop staticOffsetSrv 10 fuel PageReq.start [] [] =
          (some rows, tr) := by
  rintro ⟨fuel, rows, tr, h⟩
  have h2 := staticOffset_no_progress fuel PageReq.start [] []
  rw [h] at h2
  simp at h2

theorem echoOffset_terminates_aux (pageAt : Int → List Entry) (T limit : Int)
    (hl : 0 < limit) :
    ∀ (fuel : Nat) (o : Int) (acc : List Entry) (tr : List PageReq), 0 < fuel →
      T ≤ o + limit * fuel →
      ((fetchAllEntriesLoop (echoOffsetSrv pageAt T limit) limit fuel
        (PageReq.offset o) acc tr).1).isSome = true := by
  intro fuel
  induction fuel with
  | zero => intro o acc tr h; omega
  | succ f ih =>
    intro o acc tr _ hT
    by_cases hstop : T ≤ o + limit
    · simp only [fetchAllEntriesLoop, echoOffsetSrv]
      rw [if_pos hstop]
      rfl
    · have hexp : limit * ((f : Int) + 1) = limit * f + limit := by ring
      have hcast : ((f + 1 : Nat) : Int) = (f : Int) + 1 := by push_cast; ring
      rw [hcast, hexp] at hT
      have hf : 0 < f := by
        by_contra h0
        have hf0 : f = 0 := by omega
        subst hf0
        simp at hT
        omega
      simp only [fetchAllEntriesLoop, echoOffsetSrv]
      rw [if_neg hstop]
      exact ih (o + limit) _ _ hf (by linarith)

theorem echoOffset_trace_aux (pageAt : Int → List Entry) (T limit : Int)
    (hl : 0 < limit) :
    ∀ (fuel : Nat) (o : Int) (acc : List Entry) (tr : List PageReq),
      ∃ ext : List PageReq,
        (fetchAllEntriesLoop (echoOffsetSrv pageAt T limit) limit fuel
            (PageReq.offset o) acc tr).2 = tr ++ ext ∧
          (∀ r ∈ ext, ∃ u, o ≤ u ∧ r = PageReq.offset u) ∧ ext.Nodup := by
  intro fuel
  induction fuel with
  | zero =>
    intro o acc tr
    exact ⟨[], by simp [fetchAllEntriesLoop], by simp, List.nodup_nil⟩
  | succ f ih =>
    intro o acc tr
    by_cases hstop : T ≤ o + limit
    · refine ⟨[PageReq.offset o], ?_, ?_, by simp⟩
      · simp only [fetchAllEntriesLoop, echoOffsetSrv]
        rw [if_pos hstop]
      · intro r hr
        simp only [List.mem_singleton] at hr
        exact ⟨o, le_refl o, hr⟩
    · obtain ⟨ext2, h2, hall2, hnd2⟩ := ih (o + limit) (acc ++ pageAt o)
        (tr ++ [PageReq.offset o])
      refine ⟨PageReq.offset o :: ext2, ?_, ?_, ?_⟩
      · simp only [fetchAllEntriesLoop, echoOffsetSrv]
        rw [if_neg hstop, h2]
        simp
      · intro r hr
        rcases List.mem_cons.mp hr with rfl | hr2
        · exact ⟨o, le_refl o, rfl⟩
        · obtain ⟨u, hu, rfl⟩ := hall2 r hr2
          exact ⟨u, by linarith, rfl⟩
      · refine List.nodup_cons.mpr ⟨?_, hnd2⟩
        intro hmem
        obtain ⟨u, hu, hequ⟩ := hall2 _ hmem
        have hou : o = u := by
          injection hequ
        omega

/-- C7 amended: the walker terminates and requests each page at most once
provided the server makes progress, i.e. echoes the requested offset back
with a fixed total: with page size limit > 0 and enough iterations to
cover the total, the run yields a result and its request trace contains
no duplicate request.  When the reported total/offset stay static with
offset+limit < total the walker instead loops forever (see the
counterexample). -/
theorem c7_walker_amended (pageAt : Int → List Entry) (T limit : Int)
    (fuel : Nat) (hl : 0 < limit) (hf : 0 < fuel) (hT : T ≤ limit * fuel) :
    ((fetchAllEntriesLoop (echoOffsetSrv pageAt T limit) limit fuel
        PageReq.start [] []).1).isSome = true ∧
      ((fetchAllEntriesLoop (echoOffsetSrv pageAt T limit) limit fuel
        PageReq.start [] []).2).Nodup := by
  obtain ⟨f, rfl⟩ : ∃ f, fuel = f + 1 := ⟨fuel - 1, by omega⟩
  by_cases hstop : T ≤ 0 + limit
  · constructor
    · simp only [fetchAllEntriesLoop, echoOffsetSrv]
      rw [if_pos hstop]
      rfl
    · simp only [fetchAllEntriesLoop, echoOffsetSrv]
      rw [if_pos hstop]
      simp
  · have hexp : limit * ((f : Int) + 1) = limit * f + limit := by ring
    have hcast : ((f + 1 : Nat) : Int) = (f : Int) + 1 := by push_cast; ring
    rw [hcast, hexp] at hT
    have hf2 : 0 < f := by
      by_contra h0
      have hf0 : f = 0 := by omega
      subst hf0
      simp at hT
      omega
    constructor
    · simp only [fetchAllEntriesLoop, echoOffsetSrv]
      rw [if_neg hstop]
      exact echoOffset_terminates_aux pageAt T limit hl f (0 + limit) _ _ hf2
        (by linarith)
    · simp only [fetchAllEntriesLoop, echoOffsetSrv]
      rw [if_neg hstop]
      obtain ⟨ext, he, hall, hnd⟩ := echoOffset_trace_aux pageAt T limit hl f
        (0 + limit) ([] ++ pageAt 0) ([] ++ [PageReq.start])
      rw [he]
      simp only [List.nil_append, List.singleton_append, List.nodup_cons]
      refine ⟨?_, hnd⟩
      intro hmem
      obtain ⟨u, _, hequ⟩ := hall _ hmem
      exact PageReq.noConfusion hequ

/-- Witness for the amended C7: a concrete echo server with total 25,
page size 10 and 3 iterations of fuel. -/
theorem c7_walker_amended_witness :
    ((fetchAllEntriesLoop (echoOffsetSrv (fun _ => [entryA]) 25 10) 10 3
        PageReq.start [] []).1).isSome = true ∧
      ((fetchAllEntriesLoop (echoOffsetSrv (fun _ => [entryA]) 25 10) 10 3
        PageReq.start [] []).2).Nodup :=
  c7_walker_amended (fun _ => [entryA]) 25 10 3 (by decide) (by decide) (by decide)

theorem enrichFold_out_congr (detail : String → Except String Entry) :
    ∀ (rows : List Entry) (out : List Entry) (f1 f2 : Nat),
      (rows.foldl (enrichStep detail) (out, f1)).1 =
        (rows.foldl (enrichStep detail) (out, f2)).1 := by
  intro rows
  induction rows with
  | nil => intro out f1 f2; rfl
  | cons e rest ih =>
    intro out f1 f2
    cases hid : entryIdOf e with
    | none => simpa [enrichStep, hid] using ih (out ++ [e]) f1 f2
    | some eid =>
      cases hdet : detail eid with
      | ok d => simpa [enrichStep, hid, hdet] using ih (out ++ [d]) f1 f2
      | error msg => simpa [enrichStep, hid, hdet] using ih out (f1 + 1) (f2 + 1)

theorem enrichFold_count_add (detail : String → Except String Entry) :
    ∀ (rows : List Entry) (out : List Entry) (f k : Nat),
      (rows.foldl (enrichStep detail) (out, f + k)).2 =
        (rows.foldl (enrichStep detail) (out, f)).2 + k := by
  intro rows
  induction rows with
  | nil => intro out f k; rfl
  | cons e rest ih =>
    intro out f k
    cases hid : entryIdOf e with
    | none => simpa [enrichStep, hid] using ih (out ++ [e]) f k
    | some eid =>
      cases hdet : detail eid with
      | ok d => simpa [enrichStep, hid, hdet] using ih (out ++ [d]) f k
      | error msg =>
        have harith : f + k + 1 = (f + 1) + k := by omega
        have hstep : ∀ m : Nat, enrichStep detail (out, m) e = (out, m + 1) := by
          intro m
          simp [enrichStep, hid, hdet]
        rw [List.foldl_cons, List.foldl_cons, hstep, hstep, harith]
        exact ih out (f + 1) k

/-- C8 counterexample: one fetched record without field payload whose
detail fetch fails after retries.  fetch_incremental counts the failure
but appends nothing to the output list (the code comment says "Skip this
entry and continue import"), so the returned rows are empty: the record
is dropped rather than kept with its list-view data. -/
theorem c8_drop_counterexample :
    fetchIncrementalEnrichPhase detailAlwaysFails [entryNoFields] = ([], 1) :=
  rfl

/-- C8 amended: during detail enrichment in fetch_incremental, a record
whose detail fetch fails is logged and counted, never aborts the batch,
but is OMITTED from the returned rows: the run's output equals the output
of the same run without that record, and the failure counter is exactly
one higher. -/
theorem c8_detail_failure_drops (detail : String → Except String Entry)
    (pre post : List Entry) (e : Entry) (eid msg : String)
    (hid : entryIdOf e = some eid) (hfail : detail eid = Except.error msg) :
    (enrichDetails detail (pre ++ e :: post)).1 =
        (enrichDetails detail (pre ++ post)).1 ∧
      (enrichDetails detail (pre ++ e :: post)).2 =
        (enrichDetails detail (pre ++ post)).2 + 1 := by
  unfold enrichDetails
  rw [List.foldl_append, List.foldl_append]
  rcases hpre : pre.foldl (enrichStep detail) ([], 0) with ⟨o, f⟩
  have hstep : enrichStep detail (o, f) e = (o, f + 1) := by
    simp [enrichStep, hid, hfail]
  rw [List.foldl_cons, hstep]
  constructor
  · exact enrichFold_out_congr detail post o (f + 1) f
  · exact enrichFold_count_add detail post o f 1

/-- Witness for the amended C8 at a concrete failing record. -/
theorem c8_detail_failure_drops_witness :
    (enrichDetails detailAlwaysFails ([] ++ entryNoFields :: [])).1 =
        (enrichDetails detailAlwaysFails ([] ++ [])).1 ∧
      (enrichDetails detailAlwaysFails ([] ++ entryNoFields :: [])).2 =
        (enrichDetails detailAlwaysFails ([] ++ [])).2 + 1 :=
  c8_detail_failure_drops detailAlwaysFails [] [] entryNoFields "x1"
    "HTTP 500 during detail x1" rfl rfl

/-- C9: the debug log line of _get_with_backoff does redact the token
parameter, matching the stated redaction intent, but the RuntimeError
message of _raise_on_404 embeds r.url, the final request URL built from
the UNredacted params, so for a 404 on /libraries with a configured token
the raised diagnostic contains the token value verbatim — the code
contradicts the requirement that credentials be redacted from every
diagnostic output. -/
theorem c9_token_leak :
    debugLogLine "https://api.mementodatabase.com/v1/libraries"
        [("token", "SECRET-TOKEN-VALUE"), ("limit", "1")] 0 8 =
      "SDK -> GET https://api.mementodatabase.com/v1/libraries params=token=***&limit=1 try=1/8" ∧
    raiseOn404Msg "/libraries" "GET" "https://api.mementodatabase.com/v1/libraries"
        [("token", "SECRET-TOKEN-VALUE"), ("limit", "1")] "" =
      "Memento API ha risposto 404 su /libraries. URL: GET https://api.mementodatabase.com/v1/libraries?token=" ++
        "SECRET-TOKEN-VALUE" ++ "&limit=1\nStatus: 404\nBody: " :=
  ⟨rfl, rfl⟩
